import Mathlib

/-!
Verification development for the feishu2md repository.

The Go sources under scrutiny are cmd/bitable.go (the Bitable field-value
normalizer) and cmd/sync.go (the incremental sync planner and its metadata
store), plus the sync configuration management (AddDocument).

Modelling conventions:
- Go dynamic JSON values (interface values holding nil, string, number, bool,
  slice, map) are modelled by the inductive type GoValue.  JSON numbers are
  modelled by the integer constructor; the float64 branches of the source are
  noted where they occur.  Go maps are modelled as association lists; map
  iteration order is the list order.
- Machine integers (Go int64) are modelled by Int; overflow never matters for
  the quantities involved (revision counters, epoch timestamps).
- Side-effecting collaborators (filesystem, the remote document client, the
  external Markdown parser, sha256, utils.SanitizeFileName whose source is not
  part of this corpus) are modelled as explicit oracle fields of a SyncEnv
  record, so the planner and metadata store become pure functions of the
  environment.
- fmt.Sprint / fmt.Sprintf("%d", _) are modelled executably (goSprint,
  goSprintInt); time.Unix(..).Format is modelled by an executable Gregorian
  formatter at UTC (the local-zone offset is an environment concern and no
  claim depends on the rendered digits).
-/

/-- Model of a Go dynamic value (interface holding decoded JSON). -/
inductive GoValue where
  | null
  | str (s : String)
  | int (n : Int)
  | bool (b : Bool)
  | arr (xs : List GoValue)
  | map (kvs : List (String × GoValue))

/-- Go `v == nil` test on an interface value. -/
def GoValue.isNull : GoValue → Bool
  | GoValue.null => true
  | _ => false

/-- Go map read `m[k]`: the zero value (nil interface) when the key is absent. -/
def mget (m : List (String × GoValue)) (k : String) : GoValue :=
  match m.find? (fun kv => kv.1 == k) with
  | some kv => kv.2
  | none => GoValue.null

/-- Go comma-ok presence test `_, ok := m[k]` (true even when the value is nil). -/
def hasKey (m : List (String × GoValue)) (k : String) : Bool :=
  (m.find? (fun kv => kv.1 == k)).isSome

/-- Go type assertion `v.(string)` in comma-ok form. -/
def asString : GoValue → Option String
  | GoValue.str s => some s
  | _ => none

/-- Go type assertion `v.([]interface{})` in comma-ok form. -/
def asArr : GoValue → Option (List GoValue)
  | GoValue.arr xs => some xs
  | _ => none

/-- Go type assertion `v.(map[string]interface{})` in comma-ok form. -/
def asMap : GoValue → Option (List (String × GoValue))
  | GoValue.map kvs => some kvs
  | _ => none

/-- Decimal digit character (used by the model of Go integer formatting). -/
def digitChar (d : Nat) : Char :=
  if d = 0 then '0' else if d = 1 then '1' else if d = 2 then '2'
  else if d = 3 then '3' else if d = 4 then '4' else if d = 5 then '5'
  else if d = 6 then '6' else if d = 7 then '7' else if d = 8 then '8' else '9'

/-- Fuel-driven decimal rendering of a natural number (most significant digit
first); fuel `n` is always sufficient since `n / 10` strictly decreases. -/
def natDecCore : Nat → Nat → List Char → List Char
  | 0, n, acc => digitChar (n % 10) :: acc
  | Nat.succ fuel, n, acc =>
    if n < 10 then digitChar n :: acc
    else natDecCore fuel (n / 10) (digitChar (n % 10) :: acc)

/-- Characters of the decimal form of an integer, a model of Go `%d`. -/
def goSprintIntChars (n : Int) : List Char :=
  if n < 0 then '-' :: natDecCore n.natAbs n.natAbs []
  else natDecCore n.toNat n.toNat []

/-- Model of Go `fmt.Sprintf("%d", n)` for an int64. -/
def goSprintInt (n : Int) : String :=
  String.mk (goSprintIntChars n)

/-- Model of Go `strings.Join(parts, sep)`. -/
def joinWith (sep : String) : List String → String
  | [] => ""
  | [x] => x
  | x :: y :: xs => x ++ sep ++ joinWith sep (y :: xs)

mutual

/-- Model of Go `fmt.Sprint(v)` on a dynamic value.  Go prints map keys in
sorted order; in this model the association-list order stands for that
order. -/
def goSprint : GoValue → String
  | GoValue.null => "<nil>"
  | GoValue.str s => s
  | GoValue.int n => goSprintInt n
  | GoValue.bool b => if b then "true" else "false"
  | GoValue.arr xs => "[" ++ joinWith " " (goSprintList xs) ++ "]"
  | GoValue.map kvs => "map[" ++ joinWith " " (goSprintPairs kvs) ++ "]"

/-- `goSprint` over list elements. -/
def goSprintList : List GoValue → List String
  | [] => []
  | x :: xs => goSprint x :: goSprintList xs

/-- `goSprint` over map entries, rendered `key:value`. -/
def goSprintPairs : List (String × GoValue) → List String
  | [] => []
  | kv :: xs => (kv.1 ++ ":" ++ goSprint kv.2) :: goSprintPairs xs

end

/-- ASCII lower-casing of one character, model of the character mapping used by
Go `strings.ToLower` (the sources only ever compare ASCII names). -/
def charLowerGo (c : Char) : Char :=
  if 'A' ≤ c ∧ c ≤ 'Z' then Char.ofNat (c.toNat + 32) else c

/-- Model of Go `strings.ToLower` (ASCII range). -/
def lowerString (s : String) : String :=
  String.mk (s.data.map charLowerGo)

/-- Suffix test on character lists (Go `strings.HasSuffix`). -/
def listEndsWith (pat l : List Char) : Bool :=
  pat.isSuffixOf l

/-- Go `unicode.IsSpace` restricted to the ASCII whitespace the sources meet. -/
def isSpaceGo (c : Char) : Bool :=
  c == ' ' || c == '\t' || c == '\n' || c == '\r' || c == '\x0b' || c == '\x0c'

/-- Model of Go `strings.TrimSpace` on the character list of a string. -/
def trimSpaceList (l : List Char) : List Char :=
  ((l.dropWhile isSpaceGo).reverse.dropWhile isSpaceGo).reverse

/-- Splitting a character list at a separator character, the model of Go
`strings.Split(s, sep)` for a one-character separator. -/
def splitOnChar (sep : Char) : List Char → List (List Char)
  | [] => [[]]
  | c :: cs =>
    match splitOnChar sep cs with
    | [] => if c = sep then [[], []] else [[c]]
    | h :: t => if c = sep then [] :: h :: t else (c :: h) :: t

/-! ## Field catalog data (bitable.go `fieldInfo` and the lark option schema) -/

/-- One select option of a field property (lark option: ID and Name). -/
structure SelectOpt where
  id : String
  name : String
deriving DecidableEq, Repr

/-- Field property (the part of lark.GetBitableFieldListRespItemProperty the
normalizer consults: the Options list). -/
structure FieldProp where
  options : List SelectOpt
deriving DecidableEq, Repr

/-- bitable.go `fieldInfo`: id, display name, type code, optional property. -/
structure FieldInfo where
  id : String
  name : String
  typ : Int
  prop : Option FieldProp

/-- bitable.go `isImageFile`: name check against known image extensions after
lower-casing. -/
def imageExts : List String :=
  [".png", ".jpg", ".jpeg", ".gif", ".bmp", ".webp", ".svg", ".ico", ".tiff", ".tif"]

/-- bitable.go `isImageFile`. -/
def isImageFile (filename : String) : Bool :=
  if filename = "" then false
  else imageExts.any (fun ext => listEndsWith ext.data (lowerString filename).data)

/-- The repeated inline pattern `if filterImages && isImageFile(s) { return "" };
return s` of bitable.go. -/
def imgOr (filterImages : Bool) (s : String) : String :=
  if filterImages && isImageFile s then "" else s

/-! ## Timestamp rendering (bitable.go `formatTimeValue`) -/

/-- Model of Go `strconv.ParseInt(s, 10, 64)`: optional sign then decimal
digits (the int64 range check is omitted; no modelled value overflows). -/
def parseIntGo (s : String) : Option Int :=
  let digitsToNat : List Char → Option Nat := fun l =>
    if l.isEmpty then none
    else if l.all (fun c => c.isDigit) then
      some (l.foldl (fun acc c => acc * 10 + (c.toNat - 48)) 0)
    else none
  match s.data with
  | '+' :: rest => (digitsToNat rest).map (fun n => (n : Int))
  | '-' :: rest => (digitsToNat rest).map (fun n => -(n : Int))
  | l => (digitsToNat l).map (fun n => (n : Int))

/-- Decimal mantissa/exponent reading used by `parseFloatRound`. -/
def readDigits (l : List Char) : Nat × Nat × List Char :=
  match l with
  | c :: cs =>
    if c.isDigit then
      let (v, k, rest) := readDigits cs
      ((c.toNat - 48) * 10 ^ k + v, k + 1, rest)
    else (0, 0, l)
  | [] => (0, 0, [])

/-- Model of `int64(f + 0.5)` applied to the exact decimal value of
`strconv.ParseFloat(s, 64)`: the decimal literal is parsed exactly as a
rational and `trunc(x + 1/2)` is computed (binary floating-point rounding is
not modelled; no claim depends on it). -/
def parseFloatRound (s : String) : Option Int :=
  let core : List Char → Option Int := fun l =>
    let (sign, l1) : Int × List Char :=
      match l with
      | '+' :: cs => (1, cs)
      | '-' :: cs => (-1, cs)
      | _ => (1, l)
    let (ip, ipLen, l2) := readDigits l1
    let (fp, fpLen, l3) :=
      match l2 with
      | '.' :: cs => readDigits cs
      | _ => (0, 0, l2)
    if ipLen = 0 ∧ fpLen = 0 then none
    else
      let (expSign, expDigits, l4) : Int × (Nat × Nat × List Char) × List Char :=
        match l3 with
        | 'e' :: '-' :: cs => (-1, readDigits cs, [])
        | 'e' :: '+' :: cs => (1, readDigits cs, [])
        | 'e' :: cs => (1, readDigits cs, [])
        | 'E' :: '-' :: cs => (-1, readDigits cs, [])
        | 'E' :: '+' :: cs => (1, readDigits cs, [])
        | 'E' :: cs => (1, readDigits cs, [])
        | _ => (1, (0, 1, l3), [])
      let _ := l4
      match l3 with
      | [] =>
        let num : Int := sign * ((ip * 10 ^ fpLen + fp : Nat) : Int)
        let den : Int := (10 ^ fpLen : Nat)
        some (Int.tdiv (2 * num + den) (2 * den))
      | _ :: _ =>
        let (ev, evLen, rest) := expDigits
        if evLen = 0 ∨ ¬ rest.isEmpty then none
        else
          let e : Int := expSign * (ev : Int)
          let baseNum : Int := sign * ((ip * 10 ^ fpLen + fp : Nat) : Int)
          let num : Int := if 0 ≤ e then baseNum * (10 ^ e.toNat : Nat) else baseNum
          let den : Int := if 0 ≤ e then (10 ^ fpLen : Nat) else ((10 ^ fpLen : Nat) : Int) * (10 ^ (-e).toNat : Nat)
          some (Int.tdiv (2 * num + den) (2 * den))
  core s.data

/-- The `toInt` closure of bitable.go `formatTimeValue`: accept int64/int
directly, trim and parse strings (integer first, then float with rounding);
the float64 branch of the source is represented by the integer constructor
(JSON numbers are modelled as integers). -/
def toIntGo : GoValue → Option Int
  | GoValue.int n => some n
  | GoValue.str t =>
    let s := String.mk (trimSpaceList t.data)
    if s = "" then none
    else
      match parseIntGo s with
      | some n => some n
      | none => parseFloatRound s
  | _ => none

/-- Gregorian civil date from days since the Unix epoch (standard era-based
conversion), used by the model of Go time formatting. -/
def civilFromDays (z0 : Int) : Int × Nat × Nat :=
  let z := z0 + 719468
  let era := z.ediv 146097
  let doe := (z.emod 146097).toNat
  let yoe := (doe - doe / 1460 + doe / 36524 - doe / 146096) / 365
  let doy := doe - (365 * yoe + yoe / 4 - yoe / 100)
  let mp := (5 * doy + 2) / 153
  let d := doy - (153 * mp + 2) / 5 + 1
  let m := if mp < 10 then mp + 3 else mp - 9
  let y := (yoe : Int) + era * 400 + (if m ≤ 2 then 1 else 0)
  (y, m, d)

/-- Zero-padded two-digit decimal. -/
def pad2 (n : Nat) : String :=
  if n < 10 then "0" ++ String.mk (natDecCore n n []) else String.mk (natDecCore n n [])

/-- Model of Go `time.Unix(sec, 0).Format("2006-01-02 15:04:05")`, rendered at
UTC (the process-local zone offset is an environment concern; no claim
depends on the rendered digits, only on which epoch second is rendered). -/
def timeUnixFormat (sec : Int) : String :=
  let days := sec.ediv 86400
  let sod := (sec.emod 86400).toNat
  let (y, m, d) := civilFromDays days
  goSprintInt y ++ "-" ++ pad2 m ++ "-" ++ pad2 d ++ " " ++
    pad2 (sod / 3600) ++ ":" ++ pad2 (sod % 3600 / 60) ++ ":" ++ pad2 (sod % 60)

/-- bitable.go `formatTimeValue`: unreadable or zero values render empty;
values above 10^11 are treated as milliseconds, other positive values as
seconds. -/
def formatTimeValue (v : GoValue) : String :=
  match toIntGo v with
  | none => ""
  | some n =>
    if n = 0 then ""
    else if n > 100000000000 then timeUnixFormat (n / 1000)
    else timeUnixFormat n

/-! ## Field-value normalization helpers (bitable.go) -/

/-- bitable.go `pickStringField`: direct string read at the key, then a
case-insensitive scan (Go map iteration order modelled as list order; the scan
takes the first fold-equal key holding a string), else `fmt.Sprint`. -/
def pickStringField (v : GoValue) (key : String) : String :=
  match v with
  | GoValue.map m =>
    match asString (mget m key) with
    | some s => s
    | none =>
      match m.find? (fun kv => lowerString kv.1 == lowerString key && (asString kv.2).isSome) with
      | some kv => (asString kv.2).getD (goSprint v)
      | none => goSprint v
  | _ => goSprint v

/-- bitable.go `joinList`: map a renderer over a list value dropping empty
results, pass a single non-nil value to the renderer directly. -/
def joinList (v : GoValue) (f : GoValue → String) : String :=
  match v with
  | GoValue.arr arr =>
    if arr.isEmpty then ""
    else joinWith "," ((arr.map f).filter (fun s => s ≠ ""))
  | GoValue.null => ""
  | _ => f v

/-- The bracket trimming of bitable.go `mapSelectOptionName`
(`strings.TrimPrefix(id, "[")` on the leading side). -/
def dropLeadBracket (l : List Char) : List Char :=
  match l with
  | [] => []
  | c :: cs => if c = '[' then cs else c :: cs

/-- The bracket trimming of bitable.go `mapSelectOptionName`
(`strings.TrimSuffix(id, "]")` on the trailing side). -/
def dropTailBracket (l : List Char) : List Char :=
  match l.reverse with
  | [] => l
  | c :: cs => if c = ']' then cs.reverse else l

/-- Both bracket trims of bitable.go `mapSelectOptionName`. -/
def stripBrackets (s : String) : String :=
  String.mk (dropTailBracket (dropLeadBracket s.data))

/-- The tail of bitable.go `mapSelectOptionName` after the raw id has been
fixed: trim brackets, then resolve through the options table (first matching
id wins; an empty option name falls back to the id). -/
def selectFinish (prop : Option FieldProp) (rawId : String) : String :=
  let id := stripBrackets rawId
  match prop with
  | none => id
  | some p =>
    if p.options.isEmpty then id
    else
      match p.options.find? (fun o => o.id == id) with
      | some o => if o.name ≠ "" then o.name else id
      | none => id

/-- bitable.go `mapSelectOptionName`. -/
def mapSelectOptionName (prop : Option FieldProp) (v : GoValue) : String :=
  match v with
  | GoValue.map m =>
    match asString (mget m "id") with
    | some s => selectFinish prop s
    | none =>
      match asString (mget m "name") with
      | some nm => nm
      | none => selectFinish prop (goSprint v)
  | _ => selectFinish prop (goSprint v)

/-- Outcome of the pre-pass of bitable.go `formatFieldValue` (lines 465-493):
either an early return value or the (possibly unwrapped) value to dispatch. -/
inductive PreResult where
  | done (s : String)
  | cont (v : GoValue)

/-- The wrapper pre-pass of bitable.go `formatFieldValue`: unwrap
`{type, value}` wrappers, returning empty for select-typed wrappers carrying
`value_extra`, and short-circuiting a single-element attachment list to its
file name. -/
def formatPre (v : GoValue) (filterImages : Bool) : PreResult :=
  match v with
  | GoValue.map m =>
    match asString (mget m "type") with
    | some typeStr =>
      if hasKey m "value" then
        if (typeStr == "single_option" || typeStr == "multi_option")
            && !(mget m "value_extra").isNull then
          PreResult.done ""
        else
          let v2 := mget m "value"
          match v2 with
          | GoValue.arr [x] =>
            match x with
            | GoValue.map im =>
              if hasKey im "attachmentToken" then
                match asString (mget im "name") with
                | some nm =>
                  if filterImages && isImageFile nm then PreResult.done ""
                  else PreResult.done nm
                | none => PreResult.cont v2
              else PreResult.cont v2
            | _ => PreResult.cont v2
          | _ => PreResult.cont v2
      else PreResult.cont v
    | none => PreResult.cont v
  | _ => PreResult.cont v

/-- The reference-echo check of bitable.go `formatFieldValue` (lines 495-506):
a map whose `type` is select-like and that carries a non-nil `value_extra`
renders empty. -/
def refEchoEmpty (v : GoValue) : Bool :=
  match v with
  | GoValue.map m =>
    match asString (mget m "type") with
    | some typ =>
      (typ == "single_option" || typ == "multi_option")
        && !(mget m "value_extra").isNull
    | none => false
  | _ => false

/-- Helper of the text case: the `name` fallback after the `text` read. -/
def textCaseMapName (m : List (String × GoValue)) (filterImages : Bool) : String :=
  match asString (mget m "name") with
  | some s => if s ≠ "" then imgOr filterImages s else ""
  | none => ""

/-- One item of the text-case list loop of bitable.go `formatFieldValue`
(case 1); `none` models `continue` without appending. -/
def textItemPart (filterImages : Bool) (it : GoValue) : Option String :=
  match it with
  | GoValue.map m =>
    match asString (mget m "text") with
    | some s => if filterImages && isImageFile s then none else some s
    | none =>
      match asString (mget m "name") with
      | some s => if filterImages && isImageFile s then none else some s
      | none => none
  | _ =>
    let s := goSprint it
    if filterImages && isImageFile s then none
    else if s ≠ "" && s ≠ "map[]" then some s else none

/-- Case 1 (text) of bitable.go `formatFieldValue`. -/
def textCase (v : GoValue) (filterImages : Bool) : String :=
  match v with
  | GoValue.map m =>
    match asString (mget m "text") with
    | some s => if s ≠ "" then imgOr filterImages s else textCaseMapName m filterImages
    | none => textCaseMapName m filterImages
  | GoValue.str t => imgOr filterImages t
  | GoValue.arr ts => joinWith "\n" (ts.filterMap (textItemPart filterImages))
  | _ => ""

/-- The `text_arr` read of the case-18 item renderer (joins all sprints). -/
def rel18Arr (m : List (String × GoValue)) : String :=
  match asArr (mget m "text_arr") with
  | some arr => if arr.isEmpty then "" else joinWith "," (arr.map goSprint)
  | none => ""

/-- The item renderer of the case-18 `joinList` call. -/
def rel18Fn (x : GoValue) : String :=
  match x with
  | GoValue.map m =>
    match asString (mget m "text") with
    | some s => if s ≠ "" then s else rel18Arr m
    | none => rel18Arr m
  | _ => goSprint x

/-- Case 18 (one-way relation) of bitable.go `formatFieldValue`. -/
def case18 (v : GoValue) : String :=
  match v with
  | GoValue.map m =>
    if asString (mget m "type") = some "text" then
      match asString (mget m "text") with
      | some s =>
        if s ≠ "" then s
        else
          match asArr (mget m "text_arr") with
          | some arr =>
            if arr.isEmpty then ""
            else
              let parts := (arr.map goSprint).filter (fun s => s ≠ "")
              if parts.isEmpty then "" else joinWith "," parts
          | none => ""
      | none =>
        match asArr (mget m "text_arr") with
        | some arr =>
          if arr.isEmpty then ""
          else
            let parts := (arr.map goSprint).filter (fun s => s ≠ "")
            if parts.isEmpty then "" else joinWith "," parts
        | none => ""
    else joinList v rel18Fn
  | _ => joinList v rel18Fn

/-- Case 19 (lookup/rollup) of bitable.go `formatFieldValue`. -/
def case19 (prop : Option FieldProp) (v : GoValue) : String :=
  match v with
  | GoValue.map m =>
    let extraNames : Option String :=
      match asMap (mget m "value_extra") with
      | some ve =>
        match asArr (mget ve "options") with
        | some opts =>
          if opts.isEmpty then none
          else
            let names := opts.filterMap (fun o =>
              match o with
              | GoValue.map om =>
                match asString (mget om "name") with
                | some nm => if nm ≠ "" then some nm else none
                | none => none
              | _ => none)
            if names.isEmpty then none else some (joinWith "," names)
        | none => none
      | none => none
    match extraNames with
    | some s => s
    | none =>
      let selectEcho : Option String :=
        match asString (mget m "type") with
        | some t => if t == "single_option" || t == "multi_option" then some "" else none
        | none => none
      match selectEcho with
      | some s => s
      | none =>
        match asString (mget m "text") with
        | some s =>
          if s ≠ "" then s
          else
            match asString (mget m "name") with
            | some nm => if nm ≠ "" then nm else mapSelectOptionName prop v
            | none => mapSelectOptionName prop v
        | none =>
          match asString (mget m "name") with
          | some nm => if nm ≠ "" then nm else mapSelectOptionName prop v
          | none => mapSelectOptionName prop v
  | _ => mapSelectOptionName prop v

/-- The `text` fallback of the case-21 item renderer. -/
def rel21Text (m : List (String × GoValue)) : String :=
  match asString (mget m "text") with
  | some s => if s ≠ "" then s else ""
  | none => ""

/-- The item renderer of the case-21 `joinList` call. -/
def rel21Fn (x : GoValue) : String :=
  match x with
  | GoValue.map m =>
    match asArr (mget m "text_arr") with
    | some arr =>
      if arr.isEmpty then rel21Text m
      else
        let parts := (arr.map goSprint).filter (fun s => s ≠ "")
        if parts.isEmpty then rel21Text m else joinWith "," parts
    | none => rel21Text m
  | _ => ""

/-- The `text_arr` read of the default case on a map value. -/
def defaultMapArr (m : List (String × GoValue)) : Option String :=
  match asArr (mget m "text_arr") with
  | some arr =>
    if arr.isEmpty then none
    else
      let parts := (arr.map goSprint).filter (fun s => s ≠ "")
      if parts.isEmpty then none else some (joinWith "," parts)
  | none => none

/-- The `name` then `text_arr` fallbacks of the default case on a map value. -/
def defaultMapRest (m : List (String × GoValue)) : Option String :=
  match asString (mget m "name") with
  | some s => if s ≠ "" then some s else defaultMapArr m
  | none => defaultMapArr m

/-- The final sprint check of the default-case list loop
(`s != "" && s != "map[]"`). -/
def sprintPart (item : GoValue) : Option String :=
  let s := goSprint item
  if s ≠ "" && s ≠ "map[]" then some s else none

/-- One item of the default-case list loop of bitable.go `formatFieldValue`;
`none` models `continue` without appending. -/
def defaultArrItem (filterImages : Bool) (item : GoValue) : Option String :=
  match item with
  | GoValue.map m =>
    let afterName : Option String :=
      if hasKey m "attachmentToken" then
        match asString (mget m "name") with
        | some s =>
          if s ≠ "" then (if filterImages && isImageFile s then none else some s)
          else none
        | none => none
      else sprintPart item
    match asString (mget m "text") with
    | some s =>
      if s ≠ "" then some s
      else
        match asString (mget m "name") with
        | some s2 => if s2 ≠ "" then some s2 else afterName
        | none => afterName
    | none =>
      match asString (mget m "name") with
      | some s2 => if s2 ≠ "" then some s2 else afterName
      | none => afterName
  | _ => sprintPart item

/-- The default (unknown type code) case of bitable.go `formatFieldValue`. -/
def defaultCase (v : GoValue) (filterImages : Bool) : String :=
  let mapStep : Option String :=
    match v with
    | GoValue.map m =>
      match asString (mget m "text") with
      | some s => if s ≠ "" then some s else defaultMapRest m
      | none => defaultMapRest m
    | _ => none
  match mapStep with
  | some s => s
  | none =>
    let arrStep : Option String :=
      match v with
      | GoValue.arr arr =>
        if arr.isEmpty then none
        else
          let parts := arr.filterMap (defaultArrItem filterImages)
          if parts.isEmpty then none else some (joinWith "," parts)
      | _ => none
    match arrStep with
    | some s => s
    | none =>
      let result := goSprint v
      if result = "map[]" ∨ result = "[]" then "" else result

/-- The per-type dispatch switch of bitable.go `formatFieldValue`
(lines 508-792).  The `isCSV` flag is threaded through as in the source,
which does not consult it inside the dispatch. -/
def typeDispatch (col : FieldInfo) (v : GoValue) (isCSV filterImages : Bool) : String :=
  let _ := isCSV
  if col.typ = 1 then textCase v filterImages
  else if col.typ = 2 then goSprint v
  else if col.typ = 3 then mapSelectOptionName col.prop v
  else if col.typ = 4 then joinList v (fun x => mapSelectOptionName col.prop x)
  else if col.typ = 5 then
    (if formatTimeValue v ≠ "" then formatTimeValue v else goSprint v)
  else if col.typ = 7 then goSprint v
  else if col.typ = 11 then joinList v (fun x => pickStringField x "name")
  else if col.typ = 15 then
    (if pickStringField v "link" ≠ "" then pickStringField v "link" else goSprint v)
  else if col.typ = 17 then joinList v (fun x => imgOr filterImages (pickStringField x "name"))
  else if col.typ = 18 then case18 v
  else if col.typ = 19 then case19 col.prop v
  else if col.typ = 21 then joinList v rel21Fn
  else if col.typ = 1001 ∨ col.typ = 1002 then
    (if formatTimeValue v ≠ "" then formatTimeValue v else goSprint v)
  else if col.typ = 1003 ∨ col.typ = 1004 then joinList v (fun x => pickStringField x "name")
  else defaultCase v filterImages

/-- bitable.go `formatFieldValue`: nil renders empty; then the wrapper
pre-pass, the reference-echo check, and the per-type dispatch. -/
def formatFieldValue (col : FieldInfo) (v : GoValue) (isCSV filterImages : Bool) : String :=
  if v.isNull then ""
  else
    match formatPre v filterImages with
    | PreResult.done s => s
    | PreResult.cont v2 =>
      if refEchoEmpty v2 then "" else typeDispatch col v2 isCSV filterImages

/-- The illegal file-name characters of bitable.go `sanitizeFileName`
(the regular expression character class). -/
def illegalFileChars : List Char :=
  ['\\', '/', ':', '*', '?', '"', '<', '>', '|']

/-- The regexp replacement of bitable.go `sanitizeFileName`: every illegal
character becomes an underscore. -/
def replaceIllegalChars (l : List Char) : List Char :=
  l.map (fun c => if c ∈ illegalFileChars then '_' else c)

/-- bitable.go `sanitizeFileName` with the `time.Now().Unix()` of the fallback
name passed explicitly. -/
def sanitizeFileName (nowUnix : Int) (name : String) : String :=
  let s := trimSpaceList (replaceIllegalChars name.data)
  if s.isEmpty then String.mk ("export_".data ++ goSprintIntChars nowUnix)
  else String.mk s

/-! ## Incremental sync planner and metadata store (cmd/sync.go) -/

/-- sync config `DocConfig` (the fields the planner and store consult:
Name, URL, Group and the optional Type override, zero value `""`). -/
structure DocConfig where
  name : String
  url : String
  group : String
  typeStr : String
deriving DecidableEq, Repr

/-- sync config `SyncSettings` (the fields the planner and store consult:
SyncMode, OrganizeByGroup, UseOriginalTitle). -/
structure SyncSettings where
  syncMode : String
  organizeByGroup : Bool
  useOriginalTitle : Bool
deriving DecidableEq, Repr

/-- The remote docx fetch `client.GetDocxContent`: document title, revision
counter and (folded through the deterministic external parser
`core.NewParser(..).ParseDocxContent`) the rendered content used for
hashing. -/
structure DocxFetch where
  title : String
  revisionID : Int
  parsedContent : String

/-- The environment of the planner: the filesystem (association list from
path to contents) and the external collaborators declared in the spec as
out-of-scope interfaces — URL validation (utils.ValidateDocumentURL, returning
document type and token, `none` on error), the docx client (`none` on error),
the file-name sanitizer utils.SanitizeFileName (source not in this corpus)
and the sha256 hex digest. -/
structure SyncEnv where
  files : List (String × String)
  validateURL : String → Option (String × String)
  getDocx : String → Option DocxFetch
  sanitize : String → String
  sha256hex : String → String

/-- Filesystem read, model of `os.ReadFile` (`none` = any read error). -/
def fsRead (files : List (String × String)) (path : String) : Option String :=
  (files.find? (fun pc => pc.1 == path)).map (fun pc => pc.2)

/-- Filesystem existence test, model of `os.Stat` followed by
`os.IsNotExist` (exotic stat failures are outside the model). -/
def fsStat (files : List (String × String)) (path : String) : Bool :=
  (files.find? (fun pc => pc.1 == path)).isSome

/-- Filesystem write, model of `os.WriteFile` (last write wins). -/
def fsWrite (files : List (String × String)) (path content : String) :
    List (String × String) :=
  if (files.find? (fun pc => pc.1 == path)).isSome then
    files.map (fun pc => if pc.1 == path then (path, content) else pc)
  else files ++ [(path, content)]

/-- Model of `filepath.Join` on clean relative components. -/
def pathJoin (a b : String) : String :=
  a ++ "/" ++ b

/-- The name of a direct entry of `dir`, if `path` is such an entry. -/
def entryName (dir path : String) : Option String :=
  if (dir.data ++ ['/']).isPrefixOf path.data then
    let rest := path.data.drop (dir.data.length + 1)
    if rest.contains '/' || rest.isEmpty then none else some (String.mk rest)
  else none

/-- Model of `os.ReadDir(dir)` over the flat filesystem: the names of files
directly under `dir`, in filesystem order (a missing directory yields the
empty listing, observationally equal to the error path in every caller;
subdirectory entries are not listed, matching the `!entry.IsDir()` guards). -/
def dirEntries (files : List (String × String)) (dir : String) : List String :=
  files.filterMap (fun pc => entryName dir pc.1)

/-- Lines of a metadata file: `strings.Split(string(data), "\n")`. -/
def metaLines (content : String) : List (List Char) :=
  splitOnChar '\n' content.data

/-- The `for _, line := range lines { if strings.HasPrefix(line, key) { v =
strings.TrimPrefix(line, key); break } }` scan of sync.go: value of the first
line with the given prefixed key, `""` when absent. -/
def lineValueFor (keyEq : List Char) : List (List Char) → List Char
  | [] => []
  | l :: ls => if keyEq.isPrefixOf l then l.drop keyEq.length else lineValueFor keyEq ls

/-- First `key=value` line of a metadata file (key given with its `=`). -/
def metaValue (content : String) (key : String) : String :=
  String.mk (lineValueFor key.data (metaLines content))

/-- The no-break variant of the line scan (`storedURL = ...` overwritten on
every match): value of the last line with the given prefixed key, or the
accumulator when absent. -/
def lastValueFor (keyEq : List Char) : List (List Char) → List Char → List Char
  | [], acc => acc
  | l :: ls, acc =>
    if keyEq.isPrefixOf l then lastValueFor keyEq ls (l.drop keyEq.length)
    else lastValueFor keyEq ls acc

/-- The per-entry loop of sync.go `checkDocumentByURL`. -/
def checkDocLoop (files : List (String × String)) (outputDir url metadataDir : String) :
    List String → Bool
  | [] => true
  | e :: es =>
    if listEndsWith ".meta".data e.data then
      match fsRead files (pathJoin metadataDir e) with
      | none => checkDocLoop files outputDir url metadataDir es
      | some data =>
        let lines := metaLines data
        let storedURL := lastValueFor "URL=".data lines []
        let documentName := lastValueFor "DocumentName=".data lines []
        let actualFileName := lastValueFor "ActualFileName=".data lines []
        if String.mk storedURL = url then
          if ¬ actualFileName.isEmpty then
            if fsStat files (pathJoin outputDir (String.mk actualFileName)) then false else true
          else if ¬ documentName.isEmpty then
            if fsStat files (pathJoin outputDir (String.mk documentName ++ ".md")) then false
            else true
          else true
        else checkDocLoop files outputDir url metadataDir es
    else checkDocLoop files outputDir url metadataDir es

/-- sync.go `checkDocumentByURL`: scan the metadata directory for a record
whose stored URL matches; a match needs sync exactly when its recorded file is
missing; no match (or no metadata directory) needs sync. -/
def checkDocumentByURL (files : List (String × String)) (outputDir url : String) : Bool :=
  let metadataDir := pathJoin outputDir ".feishu2md"
  checkDocLoop files outputDir url metadataDir (dirEntries files metadataDir)

/-- The metadata scan of sync.go `checkTableDocumentExists`: `actualFileName`
persists across entries (it is declared outside the loop in the source) and
the loop breaks on the first URL match.  Returns (metadataExists,
actualFileName). -/
def tableMetaScan (files : List (String × String)) (metadataDir url : String) :
    List String → List Char → Bool × List Char
  | [], afn => (false, afn)
  | e :: es, afn =>
    if listEndsWith ".meta".data e.data then
      match fsRead files (pathJoin metadataDir e) with
      | none => tableMetaScan files metadataDir url es afn
      | some data =>
        let lines := metaLines data
        let storedURL := lastValueFor "URL=".data lines []
        let afn2 := lastValueFor "ActualFileName=".data lines afn
        if String.mk storedURL = url then (true, afn2)
        else tableMetaScan files metadataDir url es afn2
    else tableMetaScan files metadataDir url es afn

/-- sync.go `checkTableDocumentExists`: for csv/xlsx targets the output name
is only known from the metadata record; fall back to an extension scan of the
output directory when the record carries no file name. -/
def checkTableDocumentExists (files : List (String × String))
    (outputDir url docType : String) : Bool :=
  let metadataDir := pathJoin outputDir ".feishu2md"
  let scanned := tableMetaScan files metadataDir url (dirEntries files metadataDir) []
  if ¬ scanned.1 then true
  else if scanned.2.isEmpty then
    let expectedExt := if docType = "xlsx" then ".xlsx"
      else if docType = "csv" then ".csv" else ""
    if expectedExt = "" then true
    else
      if (dirEntries files outputDir).any
          (fun e => listEndsWith expectedExt.data (lowerString e).data) then false
      else true
  else
    if fsStat files (pathJoin outputDir (String.mk scanned.2)) then false else true

/-- The output directory for one document: group subdirectory exactly when
OrganizeByGroup is set and the group is non-empty (computed identically in
`shouldSyncDocument` and `saveDocumentMetadataWithFileName`). -/
def syncTargetDir (outputDir : String) (settings : SyncSettings) (doc : DocConfig) : String :=
  if settings.organizeByGroup ∧ doc.group ≠ "" then pathJoin outputDir doc.group
  else outputDir

/-- The common tail of sync.go `shouldSyncDocument` once the expected file
name and metadata name are fixed: missing file, missing metadata or missing
RevisionID need sync; docx compares the stored revision with the freshly
fetched one; other types compare the stored content hash with the hash of
title plus re-rendered content; every remote fetch error needs sync. -/
def shouldSyncTail (env : SyncEnv) (actualOutputDir metadataDir docType docToken
    fileName metaName : String) : Bool :=
  let filePath := pathJoin actualOutputDir fileName
  let metadataPath := pathJoin metadataDir metaName
  if ¬ fsStat env.files filePath then true
  else
    match fsRead env.files metadataPath with
    | none => true
    | some metadataData =>
      let lastRevisionID := metaValue metadataData "RevisionID="
      if lastRevisionID = "" then true
      else if docType = "docx" then
        match env.getDocx docToken with
        | none => true
        | some cur =>
          if goSprintInt cur.revisionID ≠ lastRevisionID then true else false
      else
        let lastContentHash := metaValue metadataData "ContentHash="
        match env.getDocx docToken with
        | none => true
        | some cur =>
          let currentContentHash := env.sha256hex (cur.title ++ cur.parsedContent)
          if lastContentHash = "" then true
          else if currentContentHash ≠ lastContentHash then true
          else false

/-- sync.go `shouldSyncDocument`: non-incremental mode always syncs; csv/xlsx
targets use the table existence check; otherwise resolve the URL (errors need
sync), pick the expected file name by naming policy (original title requires a
fetch whose failure needs sync; original title for non-docx falls back to the
URL scan) and run the revision/hash comparison tail. -/
def shouldSyncDocument (env : SyncEnv) (doc : DocConfig) (outputDir : String)
    (settings : SyncSettings) : Bool :=
  if settings.syncMode ≠ "incremental" then true
  else
    let actualOutputDir := syncTargetDir outputDir settings doc
    if doc.typeStr = "xlsx" ∨ doc.typeStr = "csv" then
      checkTableDocumentExists env.files actualOutputDir doc.url doc.typeStr
    else
      match env.validateURL doc.url with
      | none => true
      | some dt =>
        let metadataDir := pathJoin actualOutputDir ".feishu2md"
        if settings.useOriginalTitle ∧ dt.1 = "docx" then
          match env.getDocx dt.2 with
          | none => true
          | some d =>
            shouldSyncTail env actualOutputDir metadataDir dt.1 dt.2
              (env.sanitize d.title ++ ".md") (env.sanitize d.title ++ ".meta")
        else if settings.useOriginalTitle then
          checkDocumentByURL env.files actualOutputDir doc.url
        else
          shouldSyncTail env actualOutputDir metadataDir dt.1 dt.2
            (env.sanitize doc.name ++ ".md") (env.sanitize doc.name ++ ".meta")

/-- sync.go `filterDocumentsForSync`: identity in non-incremental mode, else
keep exactly the documents `shouldSyncDocument` reports as needing sync. -/
def filterDocumentsForSync (env : SyncEnv) (documents : List DocConfig)
    (outputDir : String) (settings : SyncSettings) : List DocConfig :=
  if settings.syncMode ≠ "incremental" then documents
  else documents.filter (fun doc => shouldSyncDocument env doc outputDir settings)

/-- sync.go `saveDocumentMetadataWithFileName`: the metadata record written
after every successful sync (the `time.Now().Format(time.RFC3339)` timestamp
is passed explicitly); returns the updated filesystem. -/
def saveDocumentMetadataWithFileName (env : SyncEnv) (doc : DocConfig)
    (outputDir : String) (settings : SyncSettings)
    (actualFileName syncTime : String) : List (String × String) :=
  let actualOutputDir := syncTargetDir outputDir settings doc
  let metadataDir := pathJoin actualOutputDir ".feishu2md"
  let metadataPath := pathJoin metadataDir (env.sanitize doc.name ++ ".meta")
  let metadata := "URL=" ++ doc.url ++ "\n" ++ "Name=" ++ doc.name ++ "\n" ++
    "ActualFileName=" ++ actualFileName ++ "\n" ++ "SyncTime=" ++ syncTime ++ "\n"
  fsWrite env.files metadataPath metadata

/-! ## Sync configuration management (AddDocument) -/

/-- The sync configuration (the document list managed by AddDocument). -/
structure SyncConfig where
  documents : List DocConfig
deriving DecidableEq, Repr

/-- The duplicate-scan loop of `AddDocument`: first URL match errors, then
first name match errors, in list order. -/
def addDocumentLoop (name url : String) : List DocConfig → Option String
  | [] => none
  | d :: ds =>
    if d.url = url then some ("document with URL " ++ url ++ " already exists")
    else if d.name = name then some ("document with name " ++ name ++ " already exists")
    else addDocumentLoop name url ds

/-- `(c *SyncConfig) AddDocument`: reject any duplicate URL or name, else
append the new document (Type stays the zero value). -/
def AddDocument (c : SyncConfig) (name url group : String) : Except String SyncConfig :=
  match addDocumentLoop name url c.documents with
  | some e => Except.error e
  | none => Except.ok ⟨c.documents ++ [⟨name, url, group, ""⟩]⟩

/-- Pairwise uniqueness of document names and URLs (the configuration
invariant the metadata store relies on). -/
def uniqueDocs (l : List DocConfig) : Prop :=
  l.Pairwise (fun a b => a.name ≠ b.name ∧ a.url ≠ b.url)

/-- The expected file base name the planner uses for a non-table target:
sanitized remote title under UseOriginalTitle, else the sanitized configured
name. -/
def plannerName (env : SyncEnv) (settings : SyncSettings) (doc : DocConfig)
    (cur : DocxFetch) : String :=
  if settings.useOriginalTitle then env.sanitize cur.title else env.sanitize doc.name

/-- The expected output file path the planner checks for a docx target. -/
def plannerFilePath (env : SyncEnv) (settings : SyncSettings) (doc : DocConfig)
    (cur : DocxFetch) (outputDir : String) : String :=
  pathJoin (syncTargetDir outputDir settings doc) (plannerName env settings doc cur ++ ".md")

/-- The metadata record path the planner reads for a docx target. -/
def plannerMetaPath (env : SyncEnv) (settings : SyncSettings) (doc : DocConfig)
    (cur : DocxFetch) (outputDir : String) : String :=
  pathJoin (pathJoin (syncTargetDir outputDir settings doc) ".feishu2md")
    (plannerName env settings doc cur ++ ".meta")

/-- The options list of an optional field property (empty when absent). -/
def optionsOf : Option FieldProp → List SelectOpt
  | some p => p.options
  | none => []

/-- Concrete docx target used by the planner witnesses. -/
def docC2w : DocConfig := ⟨"doc1", "https://ex.feishu.cn/docx/tok1", "", ""⟩

/-- Concrete incremental settings used by the planner witnesses. -/
def settingsC2w : SyncSettings := ⟨"incremental", false, false⟩

/-- Concrete remote fetch (revision 5) used by the planner witnesses. -/
def curC2w : DocxFetch := ⟨"Title", 5, "body"⟩

/-- Concrete planner environment: output file and a metadata record storing
RevisionID=5, remote revision also 5. -/
def envC2w : SyncEnv :=
  { files := [("out/doc1.md", "content"),
      ("out/.feishu2md/doc1.meta",
        "URL=https://ex.feishu.cn/docx/tok1\nName=doc1\nActualFileName=doc1.md\nRevisionID=5\nSyncTime=t\n")]
  , validateURL := fun u => if u = "https://ex.feishu.cn/docx/tok1" then some ("docx", "tok1") else none
  , getDocx := fun t => if t = "tok1" then some curC2w else none
  , sanitize := fun s => s
  , sha256hex := fun s => s }

/-- Concrete environment whose every remote docx fetch fails. -/
def envC8w : SyncEnv :=
  { files := [("out/doc1.md", "content"),
      ("out/.feishu2md/doc1.meta", "RevisionID=5\n")]
  , validateURL := fun u => if u = "https://ex.feishu.cn/docx/tok1" then some ("docx", "tok1") else none
  , getDocx := fun _ => none
  , sanitize := fun s => s
  , sha256hex := fun s => s }

/-- Docx target of the metadata round-trip scenario. -/
def docC3x : DocConfig := ⟨"doc1", "https://ex.feishu.cn/docx/tok1", "", ""⟩

/-- Incremental settings of the metadata round-trip scenario. -/
def settingsC3x : SyncSettings := ⟨"incremental", false, false⟩

/-- Environment of the metadata round-trip scenario: the output file has just
been written and the remote document is at revision 5 (the revision of the
content that was just fetched). -/
def envC3x : SyncEnv :=
  { files := [("out/doc1.md", "content")]
  , validateURL := fun u => if u = "https://ex.feishu.cn/docx/tok1" then some ("docx", "tok1") else none
  , getDocx := fun t => if t = "tok1" then some ⟨"Title", 5, "body"⟩ else none
  , sanitize := fun s => s
  , sha256hex := fun s => s }

/-- The filesystem after the post-sync metadata write of the round-trip
scenario. -/
def filesC3x : List (String × String) :=
  saveDocumentMetadataWithFileName envC3x docC3x "out" settingsC3x "doc1.md"
    "2026-01-01T00:00:00Z"

/-- The metadata record content `saveDocumentMetadataWithFileName` produces in
the round-trip scenario. -/
def metaC3written : String :=
  "URL=https://ex.feishu.cn/docx/tok1\nName=doc1\nActualFileName=doc1.md\nSyncTime=2026-01-01T00:00:00Z\n"

/-! ## Theorems -/

theorem digitChar_not_illegal (d : Nat) : digitChar d ∉ illegalFileChars := by
  unfold digitChar
  split_ifs <;> decide

theorem natDecCore_ne_nil (fuel : Nat) : ∀ n acc, natDecCore fuel n acc ≠ [] := by
  induction fuel with
  | zero => intro n acc; simp [natDecCore]
  | succ f ih =>
    intro n acc
    unfold natDecCore
    split
    · simp
    · exact ih _ _

theorem natDecCore_mem (fuel : Nat) :
    ∀ n acc c, c ∈ natDecCore fuel n acc → (∃ d, c = digitChar d) ∨ c ∈ acc := by
  induction fuel with
  | zero =>
    intro n acc c h
    simp only [natDecCore, List.mem_cons] at h
    rcases h with h | h
    · exact Or.inl ⟨_, h⟩
    · exact Or.inr h
  | succ f ih =>
    intro n acc c h
    unfold natDecCore at h
    split at h
    · rcases List.mem_cons.mp h with h | h
      · exact Or.inl ⟨_, h⟩
      · exact Or.inr h
    · rcases ih _ _ _ h with h | h
      · exact Or.inl h
      · rcases List.mem_cons.mp h with h | h
        · exact Or.inl ⟨_, h⟩
        · exact Or.inr h

theorem goSprintIntChars_ne_nil (n : Int) : goSprintIntChars n ≠ [] := by
  unfold goSprintIntChars
  split
  · simp
  · exact natDecCore_ne_nil _ _ _

theorem goSprintInt_ne_empty (n : Int) : goSprintInt n ≠ "" := by
  intro h
  exact goSprintIntChars_ne_nil n (by simpa using congrArg String.data h)

theorem goSprintIntChars_not_illegal (n : Int) :
    ∀ c ∈ goSprintIntChars n, c ∉ illegalFileChars := by
  intro c hc
  unfold goSprintIntChars at hc
  split at hc
  · rcases List.mem_cons.mp hc with h | h
    · subst h; decide
    · rcases natDecCore_mem _ _ _ _ h with ⟨d, rfl⟩ | h
      · exact digitChar_not_illegal d
      · simp at h
  · rcases natDecCore_mem _ _ _ _ hc with ⟨d, rfl⟩ | h
    · exact digitChar_not_illegal d
    · simp at h

theorem trimSpaceList_subset (l : List Char) : ∀ c ∈ trimSpaceList l, c ∈ l := by
  intro c h
  unfold trimSpaceList at h
  rw [List.mem_reverse] at h
  have h2 := List.dropWhile_subset isSpaceGo h
  rw [List.mem_reverse] at h2
  exact List.dropWhile_subset isSpaceGo h2

/-- C10: for every input, `sanitizeFileName` returns a non-empty string that
contains none of the characters `\ / : * ? " < > |`; illegal characters are
replaced by underscores and whitespace-only results fall back to a generated
`export_<unix-time>` name, never the empty string. -/
theorem sanitizeFileName_safe (nowUnix : Int) (name : String) :
    sanitizeFileName nowUnix name ≠ "" ∧
    ∀ c ∈ (sanitizeFileName nowUnix name).data, c ∉ illegalFileChars := by
  have hdef : sanitizeFileName nowUnix name =
      (if (trimSpaceList (replaceIllegalChars name.data)).isEmpty then
        String.mk ("export_".data ++ goSprintIntChars nowUnix)
      else String.mk (trimSpaceList (replaceIllegalChars name.data))) := rfl
  rw [hdef]
  by_cases h : (trimSpaceList (replaceIllegalChars name.data)).isEmpty
  · rw [if_pos h]
    constructor
    · intro heq
      have h2 : "export_".data ++ goSprintIntChars nowUnix = ([] : List Char) :=
        congrArg String.data heq
      exact absurd (List.append_eq_nil.mp h2).1 (by decide)
    · intro c hc
      rcases List.mem_append.mp hc with hmem | hmem
      · exact (by decide : ∀ x ∈ "export_".data, x ∉ illegalFileChars) c hmem
      · exact goSprintIntChars_not_illegal nowUnix c hmem
  · rw [if_neg h]
    constructor
    · intro heq
      have h2 : trimSpaceList (replaceIllegalChars name.data) = ([] : List Char) :=
        congrArg String.data heq
      rw [h2] at h
      exact h rfl
    · intro c hc
      have hmem := trimSpaceList_subset _ _ hc
      rcases List.mem_map.mp hmem with ⟨a, _, ha⟩
      by_cases hil : a ∈ illegalFileChars
      · rw [if_pos hil] at ha; subst ha; decide
      · rw [if_neg hil] at ha; subst ha; exact hil

/-- C4: the normalizer is a total function on the modelled value universe: it
returns a string for every field descriptor and raw value (shape mismatches
degrade to empty or best-effort stringification along every branch of the
definition), and an absent (nil) value renders as the empty string. -/
theorem formatFieldValue_total (col : FieldInfo) (v : GoValue) (isCSV filterImages : Bool) :
    (∃ s : String, formatFieldValue col v isCSV filterImages = s) ∧
    formatFieldValue col GoValue.null isCSV filterImages = "" :=
  ⟨⟨_, rfl⟩, rfl⟩

/-- C5 counterexample: a date field (type 5) normalizes the raw timestamp `0`
to a non-empty string (the `fmt.Sprint` fallback yields `"0"`), refuting the
claim that a zero timestamp renders empty. -/
theorem formatFieldValue_zero_counterexample :
    formatFieldValue ⟨"f1", "Date", 5, none⟩ (GoValue.int 0) false false ≠ "" := by
  decide

/-- C5 amended: for date/time, created-time and modified-time fields an absent
(nil) value renders empty and `formatTimeValue` maps zero or unparseable
values to the empty string, but `formatFieldValue` then falls back to the
`fmt.Sprint` form of the raw value, so a raw timestamp `0` normalizes to
`"0"`. -/
theorem formatFieldValue_zero_timestamp (col : FieldInfo) (isCSV filterImages : Bool)
    (htyp : col.typ = 5 ∨ col.typ = 1001 ∨ col.typ = 1002) :
    formatFieldValue col GoValue.null isCSV filterImages = "" ∧
    formatTimeValue (GoValue.int 0) = "" ∧
    formatTimeValue (GoValue.str "abc") = "" ∧
    formatFieldValue col (GoValue.int 0) isCSV filterImages = "0" := by
  refine ⟨rfl, by decide, by decide, ?_⟩
  show (if (GoValue.int 0).isNull then ""
    else match formatPre (GoValue.int 0) filterImages with
    | PreResult.done s => s
    | PreResult.cont v2 =>
      if refEchoEmpty v2 then "" else typeDispatch col v2 isCSV filterImages) = "0"
  have hpre : formatPre (GoValue.int 0) filterImages = PreResult.cont (GoValue.int 0) := rfl
  rw [hpre]
  unfold typeDispatch
  rcases htyp with h | h | h <;> rw [h] <;> norm_num <;> decide

/-- Witness for the amended C5 at a concrete date field. -/
theorem formatFieldValue_zero_timestamp_witness :
    formatFieldValue ⟨"f1", "Date", 5, none⟩ GoValue.null false false = "" ∧
    formatTimeValue (GoValue.int 0) = "" ∧
    formatTimeValue (GoValue.str "abc") = "" ∧
    formatFieldValue ⟨"f1", "Date", 5, none⟩ (GoValue.int 0) false false = "0" :=
  formatFieldValue_zero_timestamp ⟨"f1", "Date", 5, none⟩ false false (Or.inl rfl)

/-- C6: positive timestamps above the fixed threshold 10^11 are treated as
milliseconds (divided by 1000), those at or below it as seconds, and the
millisecond value 1700000000000 renders identically to the second value
1700000000. -/
theorem formatTimeValue_threshold (n : Int) :
    (100000000000 < n → formatTimeValue (GoValue.int n) = timeUnixFormat (n / 1000)) ∧
    (0 < n → n ≤ 100000000000 → formatTimeValue (GoValue.int n) = timeUnixFormat n) ∧
    formatTimeValue (GoValue.int 1700000000000) = formatTimeValue (GoValue.int 1700000000) := by
  refine ⟨?_, ?_, by decide⟩
  · intro h
    show (match toIntGo (GoValue.int n) with
      | none => ""
      | some k =>
        if k = 0 then ""
        else if k > 100000000000 then timeUnixFormat (k / 1000)
        else timeUnixFormat k) = timeUnixFormat (n / 1000)
    simp only [toIntGo]
    rw [if_neg (by omega), if_pos (by omega)]
  · intro h1 h2
    show (match toIntGo (GoValue.int n) with
      | none => ""
      | some k =>
        if k = 0 then ""
        else if k > 100000000000 then timeUnixFormat (k / 1000)
        else timeUnixFormat k) = timeUnixFormat n
    simp only [toIntGo]
    rw [if_neg (by omega), if_neg (by omega)]

/-- Witness for C6 at the two scenario timestamps. -/
theorem formatTimeValue_threshold_witness :
    formatTimeValue (GoValue.int 1700000000000) = timeUnixFormat 1700000000 ∧
    formatTimeValue (GoValue.int 1700000000) = timeUnixFormat 1700000000 := by
  constructor
  · have h := (formatTimeValue_threshold 1700000000000).1 (by norm_num)
    rw [h]
    norm_num
  · exact (formatTimeValue_threshold 1700000000).2.1 (by norm_num) (by norm_num)

/-- C1: for every field descriptor and every raw map value whose `type` key is
the string `single_option` or `multi_option` and whose `value_extra` key is
non-null, the normalizer returns the empty string, regardless of the field's
type code and of any other keys present. -/
theorem formatFieldValue_refEcho_empty (col : FieldInfo) (m : List (String × GoValue))
    (t : String) (isCSV filterImages : Bool)
    (ht : asString (mget m "type") = some t)
    (hsel : t = "single_option" ∨ t = "multi_option")
    (hve : (mget m "value_extra").isNull = false) :
    formatFieldValue col (GoValue.map m) isCSV filterImages = "" := by
  have hb : (t == "single_option" || t == "multi_option") = true := by
    rcases hsel with rfl | rfl <;> decide
  have hcond : ((t == "single_option" || t == "multi_option")
      && !(mget m "value_extra").isNull) = true := by
    rw [hb, hve]
    rfl
  show (match formatPre (GoValue.map m) filterImages with
    | PreResult.done s => s
    | PreResult.cont v2 =>
      if refEchoEmpty v2 then "" else typeDispatch col v2 isCSV filterImages) = ""
  have hecho : refEchoEmpty (GoValue.map m) = true := by
    simp only [refEchoEmpty]
    rw [ht]
    exact hcond
  by_cases hk : hasKey m "value" = true
  · have hpre : formatPre (GoValue.map m) filterImages = PreResult.done "" := by
      simp only [formatPre]
      rw [ht]
      exact (if_pos hk).trans (if_pos hcond)
    rw [hpre]
  · have hpre : formatPre (GoValue.map m) filterImages = PreResult.cont (GoValue.map m) := by
      simp only [formatPre]
      rw [ht]
      exact if_neg hk
    rw [hpre]
    simp [hecho]

/-- Witness for C1: a concrete select-echo wrapper with extra keys renders
empty on a numeric field. -/
theorem formatFieldValue_refEcho_empty_witness :
    formatFieldValue ⟨"f1", "Ref", 2, none⟩
      (GoValue.map [("type", GoValue.str "single_option"),
        ("value_extra", GoValue.str "e"), ("other", GoValue.int 3)]) true false = "" :=
  formatFieldValue_refEcho_empty ⟨"f1", "Ref", 2, none⟩
    [("type", GoValue.str "single_option"), ("value_extra", GoValue.str "e"),
      ("other", GoValue.int 3)]
    "single_option" true false rfl (Or.inl rfl) rfl

/-- C7 counterexample: the raw option id `"[x]"` matches no option id of the
field, yet normalization returns `"x"`, not the id unchanged — the source
strips one leading `[` and one trailing `]` before the lookup. -/
theorem mapSelect_bracket_counterexample :
    (([⟨"opt1", "Red"⟩] : List SelectOpt).all (fun o => o.id != "[x]")) = true ∧
    mapSelectOptionName (some ⟨[⟨"opt1", "Red"⟩]⟩) (GoValue.str "[x]") = "x" := by
  decide

/-- C7 amended: for a raw option id string whose bracket-trimmed form matches
no option id, normalization returns the bracket-trimmed raw id (one leading
`[` and one trailing `]` are removed); ids without surrounding brackets are
returned unchanged. -/
theorem mapSelect_unknown_id :
    (∀ (prop : Option FieldProp) (s : String),
      (∀ o ∈ optionsOf prop, o.id ≠ stripBrackets s) →
      mapSelectOptionName prop (GoValue.str s) = stripBrackets s) ∧
    (∀ s : String, s.data.head? ≠ some '[' → s.data.getLast? ≠ some ']' →
      stripBrackets s = s) := by
  constructor
  · intro prop s h
    show selectFinish prop (goSprint (GoValue.str s)) = stripBrackets s
    have hspr : goSprint (GoValue.str s) = s := rfl
    rw [hspr]
    unfold selectFinish
    cases prop with
    | none => rfl
    | some p =>
      by_cases he : p.options.isEmpty
      · simp [he]
      · have hfind : p.options.find? (fun o => o.id == stripBrackets s) = none := by
          rw [List.find?_eq_none]
          intro o ho
          simpa using h o ho
        simp [he, hfind]
  · intro s h1 h2
    have hlead : dropLeadBracket s.data = s.data := by
      cases hd : s.data with
      | nil => rfl
      | cons c cs =>
        refine if_neg (fun hc => h1 ?_)
        rw [hd, hc]
        rfl
    have htail : dropTailBracket s.data = s.data := by
      unfold dropTailBracket
      cases hr : s.data.reverse with
      | nil => rfl
      | cons c cs =>
        have hl : s.data.getLast? = some c := by
          rw [← List.head?_reverse, hr]
          rfl
        refine if_neg (fun hc => h2 ?_)
        rw [← hc]
        exact hl
    show String.mk (dropTailBracket (dropLeadBracket s.data)) = s
    rw [hlead, htail]

/-- Witness for the amended C7: an unknown unbracketed id is returned
unchanged. -/
theorem mapSelect_unknown_id_witness :
    mapSelectOptionName (some ⟨[⟨"opt1", "Red"⟩]⟩) (GoValue.str "optZ") = "optZ" := by
  have h := mapSelect_unknown_id.1 (some ⟨[⟨"opt1", "Red"⟩]⟩) "optZ" (by decide)
  rw [h]
  exact mapSelect_unknown_id.2 "optZ" (by decide) (by decide)

theorem addDocumentLoop_eq_none (name url : String) (l : List DocConfig) :
    addDocumentLoop name url l = none ↔ ∀ d ∈ l, d.url ≠ url ∧ d.name ≠ name := by
  induction l with
  | nil => simp [addDocumentLoop]
  | cons d ds ih =>
    unfold addDocumentLoop
    by_cases h1 : d.url = url
    · simp [h1]
    · by_cases h2 : d.name = name
      · simp [h1, h2]
      · simp [h1, h2, ih]

/-- C9: `AddDocument` rejects a candidate whose URL or name is already
configured (with an error, the document list unchanged in the functional
model), appends the document otherwise, and therefore preserves pairwise
uniqueness of names and URLs. -/
theorem addDocument_unique (c : SyncConfig) (name url group : String) :
    ((∃ d ∈ c.documents, d.url = url ∨ d.name = name) →
      ∃ e, AddDocument c name url group = Except.error e) ∧
    ((∀ d ∈ c.documents, d.url ≠ url ∧ d.name ≠ name) →
      AddDocument c name url group = Except.ok ⟨c.documents ++ [⟨name, url, group, ""⟩]⟩) ∧
    (∀ c2, uniqueDocs c.documents → AddDocument c name url group = Except.ok c2 →
      uniqueDocs c2.documents) := by
  refine ⟨?_, ?_, ?_⟩
  · intro hex
    unfold AddDocument
    cases hloop : addDocumentLoop name url c.documents with
    | some e => exact ⟨e, rfl⟩
    | none =>
      exfalso
      rcases hex with ⟨d, hd, hdisj⟩
      have := (addDocumentLoop_eq_none name url c.documents).mp hloop d hd
      rcases hdisj with h | h
      · exact this.1 h
      · exact this.2 h
  · intro hall
    unfold AddDocument
    rw [(addDocumentLoop_eq_none name url c.documents).mpr hall]
  · intro c2 huniq hok
    unfold AddDocument at hok
    cases hloop : addDocumentLoop name url c.documents with
    | some e => rw [hloop] at hok; exact absurd hok (by simp)
    | none =>
      rw [hloop] at hok
      have hc2 : c2 = ⟨c.documents ++ [⟨name, url, group, ""⟩]⟩ := by
        cases hok
        rfl
      subst hc2
      have hall := (addDocumentLoop_eq_none name url c.documents).mp hloop
      unfold uniqueDocs
      rw [List.pairwise_append]
      refine ⟨huniq, List.pairwise_singleton _ _, ?_⟩
      intro a ha b hb
      have hb2 : b = (⟨name, url, group, ""⟩ : DocConfig) := by simpa using hb
      subst hb2
      exact ⟨(hall a ha).2, (hall a ha).1⟩

/-- Witness for C9: adding a fresh (name, url) succeeds by appending and the
result is pairwise unique. -/
theorem addDocument_unique_witness :
    AddDocument ⟨[⟨"a", "u1", "g", ""⟩]⟩ "b" "u2" "h" =
      Except.ok ⟨[⟨"a", "u1", "g", ""⟩, ⟨"b", "u2", "h", ""⟩]⟩ ∧
    uniqueDocs [(⟨"a", "u1", "g", ""⟩ : DocConfig), ⟨"b", "u2", "h", ""⟩] := by
  have h := addDocument_unique ⟨[⟨"a", "u1", "g", ""⟩]⟩ "b" "u2" "h"
  have hok := h.2.1 (by decide)
  refine ⟨hok, ?_⟩
  have huniq : uniqueDocs [(⟨"a", "u1", "g", ""⟩ : DocConfig)] := by
    unfold uniqueDocs
    exact List.pairwise_singleton _ _
  exact h.2.2 _ huniq hok

theorem shouldSyncTail_error (env : SyncEnv) (dir mdir dtype token fileName metaName : String)
    (hnone : env.getDocx token = none) :
    shouldSyncTail env dir mdir dtype token fileName metaName = true := by
  simp only [shouldSyncTail]
  split
  · rfl
  · split
    · rfl
    · split
      · rfl
      · split
        · rw [hnone]
        · rw [hnone]

theorem shouldSync_nontable_reduction (env : SyncEnv) (doc : DocConfig) (outputDir : String)
    (settings : SyncSettings) (dtype token : String)
    (hmode : settings.syncMode = "incremental")
    (hx : doc.typeStr ≠ "xlsx") (hc : doc.typeStr ≠ "csv")
    (hval : env.validateURL doc.url = some (dtype, token)) :
    shouldSyncDocument env doc outputDir settings =
      (if settings.useOriginalTitle ∧ dtype = "docx" then
        match env.getDocx token with
        | none => true
        | some d =>
          shouldSyncTail env (syncTargetDir outputDir settings doc)
            (pathJoin (syncTargetDir outputDir settings doc) ".feishu2md") dtype token
            (env.sanitize d.title ++ ".md") (env.sanitize d.title ++ ".meta")
      else if settings.useOriginalTitle then
        checkDocumentByURL env.files (syncTargetDir outputDir settings doc) doc.url
      else
        shouldSyncTail env (syncTargetDir outputDir settings doc)
          (pathJoin (syncTargetDir outputDir settings doc) ".feishu2md") dtype token
          (env.sanitize doc.name ++ ".md") (env.sanitize doc.name ++ ".meta")) := by
  simp only [shouldSyncDocument]
  rw [if_neg (by simp [hmode])]
  rw [if_neg (by simp [hx, hc])]
  rw [hval]

theorem shouldSyncTail_docx_stat_false (env : SyncEnv) (dir mdir token fileName metaName : String)
    (h : fsStat env.files (pathJoin dir fileName) = false) :
    shouldSyncTail env dir mdir "docx" token fileName metaName = true := by
  simp only [shouldSyncTail]
  rw [if_pos (by rw [h]; simp)]

theorem shouldSyncTail_docx_read_none (env : SyncEnv) (dir mdir token fileName metaName : String)
    (h : fsRead env.files (pathJoin mdir metaName) = none) :
    shouldSyncTail env dir mdir "docx" token fileName metaName = true := by
  simp only [shouldSyncTail]
  split
  · rfl
  · rw [h]

theorem shouldSyncTail_docx_compare (env : SyncEnv) (dir mdir token fileName metaName md : String)
    (cur : DocxFetch)
    (hstat : fsStat env.files (pathJoin dir fileName) = true)
    (hread : fsRead env.files (pathJoin mdir metaName) = some md)
    (hdocx : env.getDocx token = some cur) :
    shouldSyncTail env dir mdir "docx" token fileName metaName =
      (if metaValue md "RevisionID=" = "" then true
       else if goSprintInt cur.revisionID ≠ metaValue md "RevisionID=" then true
       else false) := by
  simp [shouldSyncTail, hstat, hread, hdocx]

/-- C2: in incremental mode, for a docx target whose expected output file
exists and whose metadata record stores a RevisionID equal to the freshly
fetched remote revision, the planner skips the document (and
`filterDocumentsForSync` excludes it); a differing stored revision, a missing
output file or a missing metadata record each put the document in the plan. -/
theorem planner_docx_revision (env : SyncEnv) (docs : List DocConfig) (doc : DocConfig)
    (outputDir : String) (settings : SyncSettings) (token : String) (cur : DocxFetch)
    (hmode : settings.syncMode = "incremental")
    (hx : doc.typeStr ≠ "xlsx") (hc : doc.typeStr ≠ "csv")
    (hval : env.validateURL doc.url = some ("docx", token))
    (hdocx : env.getDocx token = some cur) :
    (∀ md : String,
      fsStat env.files (plannerFilePath env settings doc cur outputDir) = true →
      fsRead env.files (plannerMetaPath env settings doc cur outputDir) = some md →
      metaValue md "RevisionID=" = goSprintInt cur.revisionID →
      shouldSyncDocument env doc outputDir settings = false ∧
      doc ∉ filterDocumentsForSync env docs outputDir settings) ∧
    (∀ md : String,
      fsStat env.files (plannerFilePath env settings doc cur outputDir) = true →
      fsRead env.files (plannerMetaPath env settings doc cur outputDir) = some md →
      metaValue md "RevisionID=" ≠ goSprintInt cur.revisionID →
      shouldSyncDocument env doc outputDir settings = true) ∧
    (fsStat env.files (plannerFilePath env settings doc cur outputDir) = false →
      shouldSyncDocument env doc outputDir settings = true) ∧
    (fsRead env.files (plannerMetaPath env settings doc cur outputDir) = none →
      shouldSyncDocument env doc outputDir settings = true) ∧
    (doc ∈ docs → shouldSyncDocument env doc outputDir settings = true →
      doc ∈ filterDocumentsForSync env docs outputDir settings) := by
  have hred := shouldSync_nontable_reduction env doc outputDir settings "docx" token
    hmode hx hc hval
  have hred2 : shouldSyncDocument env doc outputDir settings =
      shouldSyncTail env (syncTargetDir outputDir settings doc)
        (pathJoin (syncTargetDir outputDir settings doc) ".feishu2md") "docx" token
        (plannerName env settings doc cur ++ ".md")
        (plannerName env settings doc cur ++ ".meta") := by
    rw [hred]
    by_cases huot : settings.useOriginalTitle = true
    · rw [if_pos ⟨huot, rfl⟩, hdocx]
      simp only [plannerName]
      rw [if_pos huot]
    · rw [if_neg (fun hand => huot hand.1), if_neg huot]
      simp only [plannerName]
      rw [if_neg huot]
  refine ⟨?_, ?_, ?_, ?_, ?_⟩
  · intro md hstat hread heq
    have hstat2 : fsStat env.files (pathJoin (syncTargetDir outputDir settings doc)
        (plannerName env settings doc cur ++ ".md")) = true := hstat
    have hread2 : fsRead env.files (pathJoin (pathJoin (syncTargetDir outputDir settings doc)
        ".feishu2md") (plannerName env settings doc cur ++ ".meta")) = some md := hread
    have hfalse : shouldSyncDocument env doc outputDir settings = false := by
      rw [hred2, shouldSyncTail_docx_compare env _ _ token _ _ md cur hstat2 hread2 hdocx]
      rw [heq]
      rw [if_neg (goSprintInt_ne_empty cur.revisionID)]
      rw [if_neg (by simp)]
    refine ⟨hfalse, ?_⟩
    simp only [filterDocumentsForSync]
    rw [if_neg (by simp [hmode])]
    intro hmem
    have hpred := (List.mem_filter.mp hmem).2
    rw [hfalse] at hpred
    exact absurd hpred (by simp)
  · intro md hstat hread hne
    have hstat2 : fsStat env.files (pathJoin (syncTargetDir outputDir settings doc)
        (plannerName env settings doc cur ++ ".md")) = true := hstat
    have hread2 : fsRead env.files (pathJoin (pathJoin (syncTargetDir outputDir settings doc)
        ".feishu2md") (plannerName env settings doc cur ++ ".meta")) = some md := hread
    rw [hred2, shouldSyncTail_docx_compare env _ _ token _ _ md cur hstat2 hread2 hdocx]
    by_cases hempty : metaValue md "RevisionID=" = ""
    · rw [if_pos hempty]
    · rw [if_neg hempty, if_pos (Ne.symm hne)]
  · intro hstat
    have hstat2 : fsStat env.files (pathJoin (syncTargetDir outputDir settings doc)
        (plannerName env settings doc cur ++ ".md")) = false := hstat
    rw [hred2]
    exact shouldSyncTail_docx_stat_false env _ _ token _ _ hstat2
  · intro hread
    have hread2 : fsRead env.files (pathJoin (pathJoin (syncTargetDir outputDir settings doc)
        ".feishu2md") (plannerName env settings doc cur ++ ".meta")) = none := hread
    rw [hred2]
    by_cases hstat : fsStat env.files (pathJoin (syncTargetDir outputDir settings doc)
        (plannerName env settings doc cur ++ ".md")) = true
    · exact shouldSyncTail_docx_read_none env _ _ token _ _ hread2
    · exact shouldSyncTail_docx_stat_false env _ _ token _ _ (by simpa using hstat)
  · intro hmem htrue
    simp only [filterDocumentsForSync]
    rw [if_neg (by simp [hmode])]
    exact List.mem_filter.mpr ⟨hmem, htrue⟩

/-- Witness for C2: with a stored RevisionID equal to the remote revision 5,
the concrete scenario is skipped and excluded from the plan. -/
theorem planner_docx_revision_witness :
    shouldSyncDocument envC2w docC2w "out" settingsC2w = false ∧
    docC2w ∉ filterDocumentsForSync envC2w [docC2w] "out" settingsC2w :=
  (planner_docx_revision envC2w [docC2w] docC2w "out" settingsC2w "tok1" curC2w
    rfl (by decide) (by decide) rfl rfl).1
    "URL=https://ex.feishu.cn/docx/tok1\nName=doc1\nActualFileName=doc1.md\nRevisionID=5\nSyncTime=t\n"
    (by decide) (by decide) (by decide)

/-- C8: in incremental mode, whenever the remote docx lookup performed during
the change check fails, the planner reports the document as needing sync (the
naming-policy hypothesis excludes exactly the configurations whose change
check performs no remote lookup). -/
theorem planner_remote_error_resync (env : SyncEnv) (doc : DocConfig) (outputDir : String)
    (settings : SyncSettings) (dtype token : String)
    (hmode : settings.syncMode = "incremental")
    (hx : doc.typeStr ≠ "xlsx") (hc : doc.typeStr ≠ "csv")
    (hval : env.validateURL doc.url = some (dtype, token))
    (hnone : env.getDocx token = none)
    (huot : settings.useOriginalTitle = true → dtype = "docx") :
    shouldSyncDocument env doc outputDir settings = true := by
  rw [shouldSync_nontable_reduction env doc outputDir settings dtype token hmode hx hc hval]
  by_cases hu : settings.useOriginalTitle = true
  · rw [if_pos ⟨hu, huot hu⟩, hnone]
  · rw [if_neg (fun hand => hu hand.1), if_neg hu]
    exact shouldSyncTail_error env _ _ dtype token _ _ hnone

/-- Witness for C8: a failing remote fetch puts the concrete document in the
plan. -/
theorem planner_remote_error_resync_witness :
    shouldSyncDocument envC8w docC2w "out" settingsC2w = true :=
  planner_remote_error_resync envC8w docC2w "out" settingsC2w "docx" "tok1"
    rfl (by decide) (by decide) rfl rfl (fun _ => rfl)

/-- C3 (code bug): after a successful docx sync at remote revision 5, the
metadata record written by `saveDocumentMetadataWithFileName` carries no
RevisionID or ContentHash line, so the record looked up for the target's URL
holds no fingerprint and the planner re-syncs the unchanged document. -/
theorem saveMetadata_drops_fingerprint :
    fsRead filesC3x (pathJoin (pathJoin "out" ".feishu2md") "doc1.meta") = some metaC3written ∧
    metaValue metaC3written "RevisionID=" = "" ∧
    metaValue metaC3written "ContentHash=" = "" ∧
    shouldSyncDocument { envC3x with files := filesC3x } docC3x "out" settingsC3x = true := by
  decide
